import Mathlib

/-
Verification of the clopus-watcher run ingestion pipeline.

The development shallowly embeds the two relevant source files:

* `watcher/entrypoint.sh` — the report extractor: the `sed`/`grep` pipeline
  that cuts the `===REPORT_START===` / `===REPORT_END===` block out of the
  agent transcript, the `grep -o` based field extraction for `pod_count`,
  `error_count`, `fix_count` and `status`, the `case` validation of the
  status, and the log truncation used when the artifact JSON is written.
  Transcripts and strings are modelled as `List Char` (a line list for the
  transcript); the grep patterns are modelled by executable scanners that
  implement the exact regular expressions appearing in the script.

* `dashboard/db/postgres.go` — the importer `ImportJSONResults` and the
  per-namespace aggregation of `GetNamespaces`.  The `clopus_watcher_runs`
  table is modelled as a `List Run` threaded explicitly through the
  importer; the SQL uniqueness constraint on `id` together with the
  existence check of the importer is modelled by skipping an artifact whose
  id is already present.  Artifact files that cannot be read or fail to
  decode are modelled by the `ArtifactFile.malformed` constructor.
-/

/- ===================== character classes ===================== -/

/-- POSIX `[[:space:]]` as used by the `grep -o` patterns of the watcher:
space, tab, newline, vertical tab, form feed, carriage return. -/
def isSpaceCh (c : Char) : Bool :=
  c == ' ' || c == '\t' || c == '\n' || c == Char.ofNat 11 || c == Char.ofNat 12 || c == '\r'

/-- POSIX `[0-9]`. -/
def isDigitCh (c : Char) : Bool :=
  '0' ≤ c && c ≤ '9'

/- ===================== generic string helpers ===================== -/

/-- Substring test: models `grep` matching a fixed string anywhere in a line. -/
def containsSub (pat s : List Char) : Bool :=
  s.tails.any (fun t => pat.isPrefixOf t)

/-- Trailing-newline stripping performed by bash command substitution. -/
def stripTrailingNL (s : List Char) : List Char :=
  (List.dropWhile (fun c => c == '\n') s.reverse).reverse

/-- Match a literal character sequence at the head of the input, returning
the rest on success. -/
def stripLit : List Char → List Char → Option (List Char)
  | [], s => some s
  | _ :: _, [] => none
  | p :: ps, c :: cs => if c == p then stripLit ps cs else none

/- ===================== the grep -o scanners ===================== -/

/-- One attempt, at the head of `s`, of the count pattern
`"<key>"[[:space:]]*:[[:space:]]*[0-9]*` (entrypoint.sh lines 125, 129, 133),
composed with the digit-suffix extraction `grep -o '[0-9]*$'` applied to the
matched text: on success it returns the (possibly empty) digit run bound to
the quoted key, together with the input remaining after the whole match. -/
def matchCountKey (key : List Char) (s : List Char) : Option (List Char × List Char) :=
  match stripLit ('"' :: key ++ ['"']) s with
  | none => none
  | some r1 =>
    match r1.dropWhile isSpaceCh with
    | ':' :: r3 =>
      some ((r3.dropWhile isSpaceCh).takeWhile isDigitCh,
        (r3.dropWhile isSpaceCh).dropWhile isDigitCh)
    | _ => none

/-- One attempt, at the head of `s`, of the status pattern
`"status"[[:space:]]*:[[:space:]]*"[^"]*"` (entrypoint.sh line 137), composed
with the sed extraction `s/.*"\([^"]*\)"$/\1/` of the quoted value: on
success it returns the value between the quotes and the remaining input. -/
def matchStatusKey (s : List Char) : Option (List Char × List Char) :=
  match stripLit ('"' :: "status".data ++ ['"']) s with
  | none => none
  | some r1 =>
    match r1.dropWhile isSpaceCh with
    | ':' :: r3 =>
      match r3.dropWhile isSpaceCh with
      | '"' :: r4 =>
        match r4.dropWhile (fun c => !(c == '"')) with
        | '"' :: r5 => some (r4.takeWhile (fun c => !(c == '"')), r5)
        | _ => none
      | _ => none
    | _ => none

/-- `grep -o`: scan left to right, collecting every non-overlapping match and
resuming after the matched text.  The fuel argument (instantiated with the
input length) only serves totality; every matcher used here consumes at
least one character. -/
def scanAux (m : List Char → Option (List Char × List Char)) : Nat → List Char → List (List Char)
  | _, [] => []
  | 0, _ :: _ => []
  | Nat.succ n, c :: cs =>
    match m (c :: cs) with
    | some (d, rest) => d :: scanAux m n rest
    | none => scanAux m n cs

/-- All matches of a pattern in a line, in order (`grep -o`). -/
def grepAll (m : List Char → Option (List Char × List Char)) (s : List Char) : List (List Char) :=
  scanAux m s.length s

/- ===================== field extraction ===================== -/

def podKeyC : List Char := "pod_count".data

def errorKeyC : List Char := "error_count".data

def fixKeyC : List Char := "fix_count".data

def okC : List Char := "ok".data

/-- The value a count variable holds after the parsing block of
entrypoint.sh (lines 124-134): the digit suffixes of all matches of the
quoted-key pattern (empty ones are not emitted by `grep -o '[0-9]*$'`),
newline-joined by command substitution; the variable keeps its default `0`
when there is no match. -/
def countVar (key report : List Char) : List Char :=
  let l := (grepAll (matchCountKey key) report).filter (fun d => !d.isEmpty)
  if l.isEmpty then ['0'] else List.intercalate ['\n'] l

/-- The closed status enum of the `case` statement (entrypoint.sh line 143). -/
def statusEnumL (s : List Char) : Bool :=
  s == "ok".data || s == "fixed".data || s == "failed".data ||
    s == "issues_found".data || s == "running".data

/-- The `case` validation of entrypoint.sh lines 141-145: a status outside
the closed enum is replaced by `ok`. -/
def validateStatus (s : List Char) : List Char :=
  if statusEnumL s then s else okC

/-- The `PARSED` value of the status extraction (entrypoint.sh line 137):
all extracted values newline-joined, with trailing newlines stripped by
command substitution. -/
def statusParsed (report : List Char) : List Char :=
  stripTrailingNL (List.intercalate ['\n'] (grepAll matchStatusKey report))

/-- The `STATUS` variable after line 138: default `ok` when nothing parsed. -/
def statusVar (report : List Char) : List Char :=
  if (statusParsed report).isEmpty then okC else statusParsed report

/- ===================== report block parsing ===================== -/

def startMarkerC : List Char := "===REPORT_START===".data

def endMarkerC : List Char := "===REPORT_END===".data

def reportMarkC : List Char := "===REPORT".data

/-- `sed -n '/===REPORT_START===/,/===REPORT_END===/p'` on a line stream:
outside a range, a line containing the start marker is printed and opens the
range; inside, every line is printed and a line containing the end marker
closes it. -/
def sedRange : Bool → List (List Char) → List (List Char)
  | _, [] => []
  | false, l :: ls =>
    if containsSub startMarkerC l then l :: sedRange true ls else sedRange false ls
  | true, l :: ls =>
    l :: (if containsSub endMarkerC l then sedRange false ls else sedRange true ls)

/-- `tr -s ' '`: squeeze runs of spaces; the Boolean records whether the
previous emitted character was a space. -/
def squeezeAux : List Char → Bool → List Char
  | [], _ => []
  | c :: cs, prevSp =>
    if c == ' ' then
      (if prevSp then squeezeAux cs true else ' ' :: squeezeAux cs true)
    else c :: squeezeAux cs false

def squeezeSpaces (s : List Char) : List Char := squeezeAux s false

/-- `grep -q "===REPORT_START==="` over the transcript (line 112). -/
def hasStart (transcript : List (List Char)) : Bool :=
  transcript.any (containsSub startMarkerC)

/-- The `REPORT` value built on line 113: the sed range, minus every line
containing `===REPORT` (`grep -v`), with newlines deleted (`tr -d`) and
space runs squeezed (`tr -s ' '`). -/
def parseBlock (transcript : List (List Char)) : List Char :=
  squeezeSpaces (List.flatten ((sedRange false transcript).filter (fun l => !(containsSub reportMarkC l))))

/-- The variables holding the extractor result just after line 147 of
entrypoint.sh.  All of them are shell strings. -/
structure WatcherResult where
  report : List Char
  podCount : List Char
  errorCount : List Char
  fixCount : List Char
  status : List Char
deriving DecidableEq

/-- The whole PARSE REPORT section of entrypoint.sh (lines 110-145): build
`REPORT` (empty when the start marker is absent), parse the three counts and
the status only when `REPORT` is non-empty (defaults `0`, `0`, `0`, `ok`
otherwise), then validate the status against the closed enum. -/
def extractAll (transcript : List (List Char)) : WatcherResult :=
  let report := if hasStart transcript then parseBlock transcript else []
  if report.isEmpty then
    { report := []
      podCount := ['0']
      errorCount := ['0']
      fixCount := ['0']
      status := validateStatus okC }
  else
    { report := report
      podCount := countVar podKeyC report
      errorCount := countVar errorKeyC report
      fixCount := countVar fixKeyC report
      status := validateStatus (statusVar report) }

/- ===================== artifact log truncation ===================== -/

/-- `sed 's/"/\\"/g'`: escape double quotes. -/
def escapeQuotes (s : List Char) : List Char :=
  List.flatten (s.map (fun c => if c == '"' then ['\\', '"'] else [c]))

/-- The `log` value written into the artifact JSON (entrypoint.sh lines 150
and 167): `FULL_LOG=$(head -c 100000 "$LOG_FILE")`, then
`echo "$FULL_LOG" | sed 's/"/\\"/g' | head -c 50000` inside a command
substitution (echo appends a newline, command substitution strips trailing
newlines). -/
def watcherLog (logFile : List Char) : List Char :=
  stripTrailingNL (List.take 50000 (escapeQuotes (stripTrailingNL (List.take 100000 logFile)) ++ ['\n']))

/- ===================== the relational store ===================== -/

/-- One row of `clopus_watcher_runs` (struct `Run` of postgres.go; the Go
field `Namespace` is called `nspace` here because `namespace` is a Lean
keyword). -/
structure Run where
  id : Int
  startedAt : String
  endedAt : String
  nspace : String
  mode : String
  status : String
  podCount : Int
  errorCount : Int
  fixCount : Int
  report : String
  log : String
deriving DecidableEq

/-- The anonymous result struct decoded from an artifact JSON file in
`ImportJSONResults` (postgres.go lines 295-307). -/
structure Artifact where
  id : Int
  startedAt : String
  endedAt : String
  nspace : String
  mode : String
  status : String
  podCount : Int
  errorCount : Int
  fixCount : Int
  report : String
  log : String
deriving DecidableEq

/-- One `run_*.json` file as the importer sees it: either its content fails
to be read or decoded (postgres.go lines 290-311, both failure branches
`continue`), or it decodes to an artifact record. -/
inductive ArtifactFile where
  | malformed : ArtifactFile
  | good : Artifact → ArtifactFile
deriving DecidableEq

/-- The `EXISTS(SELECT 1 FROM clopus_watcher_runs WHERE id = $1)` check
(postgres.go line 315). -/
def runExists (t : List Run) (i : Int) : Bool :=
  t.any (fun r => r.id == i)

/-- The row built from a decoded artifact (postgres.go lines 320-334):
empty timestamps are defaulted to the import-time clock, every other field
is inserted verbatim. -/
def toRun (now : String) (a : Artifact) : Run :=
  { id := a.id
    startedAt := if a.startedAt = "" then now else a.startedAt
    endedAt := if a.endedAt = "" then now else a.endedAt
    nspace := a.nspace
    mode := a.mode
    status := a.status
    podCount := a.podCount
    errorCount := a.errorCount
    fixCount := a.fixCount
    report := a.report
    log := a.log }

/-- Processing of one file in the import loop: a malformed file is skipped,
an artifact whose id already exists is skipped, otherwise the row is
inserted.  (The uniqueness constraint on `id` can no longer fire after the
existence check in this sequential model, so the insert of a fresh id
succeeds.) -/
def importOne (now : String) (t : List Run) (f : ArtifactFile) : List Run :=
  match f with
  | .malformed => t
  | .good a => if runExists t a.id then t else t ++ [toRun now a]

/-- The loop of `ImportJSONResults` over the globbed file list
(postgres.go lines 289-339). -/
def importPass (now : String) (fs : List ArtifactFile) (t : List Run) : List Run :=
  fs.foldl (importOne now) t

/-- `ImportJSONResults` itself (postgres.go lines 283-342): a glob failure
is the only returned error; otherwise the loop runs over all files and the
function returns `nil`.  The Go function returns only `error`; the store is
threaded explicitly here because the model is pure, and the `Except.ok`
payload is the new store. -/
def importJSONResults (now : String) (glob : Except String (List ArtifactFile))
    (t : List Run) : Except String (List Run) :=
  match glob with
  | .error e => .error e
  | .ok fs => .ok (importPass now fs t)

/-- The decodable artifacts of a file list, in order. -/
def goodArtifacts (fs : List ArtifactFile) : List Artifact :=
  fs.filterMap (fun f => match f with | .malformed => none | .good a => some a)

/- ===================== aggregation ===================== -/

/-- The closed status enum, on the store side. -/
def statusAllowed (s : String) : Bool :=
  s == "ok" || s == "fixed" || s == "failed" || s == "issues_found" || s == "running"

/-- The rows of one namespace group of the `GetNamespaces` query
(postgres.go lines 164-174). -/
def nsRuns (t : List Run) (ns : String) : List Run :=
  t.filter (fun r => r.nspace == ns)

/-- `COUNT(*)` of a namespace group. -/
def runCount (t : List Run) (ns : String) : Nat :=
  (nsRuns t ns).length

/-- `SUM(CASE WHEN status = 'ok' THEN 1 ELSE 0 END)`. -/
def okCount (t : List Run) (ns : String) : Nat :=
  (nsRuns t ns).countP (fun r => r.status == "ok")

/-- `SUM(CASE WHEN status = 'fixed' THEN 1 ELSE 0 END)`. -/
def fixedCount (t : List Run) (ns : String) : Nat :=
  (nsRuns t ns).countP (fun r => r.status == "fixed")

/-- `SUM(CASE WHEN status = 'failed' OR status = 'issues_found' THEN 1 ELSE 0 END)`. -/
def failedCount (t : List Run) (ns : String) : Nat :=
  (nsRuns t ns).countP (fun r => r.status == "failed" || r.status == "issues_found")

/- ===================== sample values used by witnesses and counterexamples ===================== -/

def sampleRun : Run :=
  { id := 1700000000
    startedAt := "2023-11-14T22:13:20Z"
    endedAt := "2023-11-14T22:20:00Z"
    nspace := "prod"
    mode := "autonomous"
    status := "fixed"
    podCount := 12
    errorCount := 3
    fixCount := 2
    report := "r"
    log := "l" }

def sampleArtifact : Artifact :=
  { id := 1700000000
    startedAt := "2024-01-01T00:00:00Z"
    endedAt := "2024-01-01T00:10:00Z"
    nspace := "dev"
    mode := "report"
    status := "ok"
    podCount := 1
    errorCount := 0
    fixCount := 0
    report := "other"
    log := "other" }

def sampleArtifact2 : Artifact :=
  { id := 1700000001
    startedAt := "2024-01-02T00:00:00Z"
    endedAt := "2024-01-02T00:10:00Z"
    nspace := "dev"
    mode := "autonomous"
    status := "failed"
    podCount := 4
    errorCount := 2
    fixCount := 0
    report := "r2"
    log := "l2" }

def batchFiles : List ArtifactFile :=
  [ArtifactFile.good sampleArtifact, ArtifactFile.malformed, ArtifactFile.good sampleArtifact2]

def bogusArtifact : Artifact :=
  { id := 7
    startedAt := ""
    endedAt := ""
    nspace := "prod"
    mode := "autonomous"
    status := "bogus"
    podCount := 1
    errorCount := 0
    fixCount := 0
    report := ""
    log := "" }

def hugeLog : String := String.mk (List.replicate 100001 'a')

def hugeArtifact : Artifact :=
  { id := 9
    startedAt := "2024-01-01T00:00:00Z"
    endedAt := "2024-01-01T00:10:00Z"
    nspace := "prod"
    mode := "autonomous"
    status := "ok"
    podCount := 0
    errorCount := 0
    fixCount := 0
    report := ""
    log := hugeLog }

/-- A run row with an out-of-enum status, as the importer can produce. -/
def bogusRun : Run :=
  { id := 3
    startedAt := "2024-01-01T00:00:00Z"
    endedAt := "2024-01-01T00:10:00Z"
    nspace := "prod"
    mode := "autonomous"
    status := "bogus"
    podCount := 0
    errorCount := 0
    fixCount := 0
    report := ""
    log := "" }

/-- A matcher that always consumes at least one character of its input. -/
def Shrinking (m : List Char → Option (List Char × List Char)) : Prop :=
  ∀ s d r, m s = some (d, r) → r.length < s.length

/- ===================== importer lemmas ===================== -/

@[simp] lemma goodArtifacts_nil : goodArtifacts [] = [] := rfl

@[simp] lemma goodArtifacts_cons_mal (fs : List ArtifactFile) :
    goodArtifacts (ArtifactFile.malformed :: fs) = goodArtifacts fs := rfl

@[simp] lemma goodArtifacts_cons_good (a : Artifact) (fs : List ArtifactFile) :
    goodArtifacts (ArtifactFile.good a :: fs) = a :: goodArtifacts fs := rfl

lemma runExists_iff (t : List Run) (i : Int) :
    runExists t i = true ↔ ∃ r ∈ t, r.id = i := by
  simp [runExists, List.any_eq_true]

lemma mem_importOne (now : String) (t : List Run) (f : ArtifactFile) (r : Run)
    (h : r ∈ t) : r ∈ importOne now t f := by
  cases f with
  | malformed => exact h
  | good a =>
    by_cases he : runExists t a.id = true
    · simpa [importOne, he] using h
    · simp only [importOne, he, if_false]
      exact List.mem_append_left _ h

lemma mem_importPass (now : String) (fs : List ArtifactFile) (t : List Run) (r : Run)
    (h : r ∈ t) : r ∈ importPass now fs t := by
  induction fs generalizing t with
  | nil => exact h
  | cons f fs ih => exact ih _ (mem_importOne now t f r h)

lemma runExists_importOne (now : String) (t : List Run) (f : ArtifactFile) (i : Int)
    (h : runExists t i = true) : runExists (importOne now t f) i = true := by
  rcases (runExists_iff t i).mp h with ⟨r, hr, hri⟩
  exact (runExists_iff _ i).mpr ⟨r, mem_importOne now t f r hr, hri⟩

lemma runExists_importPass (now : String) (fs : List ArtifactFile) (t : List Run) (i : Int)
    (h : runExists t i = true) : runExists (importPass now fs t) i = true := by
  induction fs generalizing t with
  | nil => exact h
  | cons f fs ih => exact ih _ (runExists_importOne now t f i h)

lemma importOne_skip (now : String) (t : List Run) (a : Artifact)
    (h : runExists t a.id = true) : importOne now t (ArtifactFile.good a) = t := by
  simp [importOne, h]

lemma importOne_insert (now : String) (t : List Run) (a : Artifact)
    (h : ¬runExists t a.id = true) :
    importOne now t (ArtifactFile.good a) = t ++ [toRun now a] := by
  simp only [importOne]
  rw [if_neg h]

lemma importOne_self (now : String) (t : List Run) (a : Artifact) :
    runExists (importOne now t (ArtifactFile.good a)) a.id = true := by
  by_cases he : runExists t a.id = true
  · rw [importOne_skip now t a he]; exact he
  · rw [importOne_insert now t a he]
    simp [runExists, toRun]

lemma importPass_establishes (now : String) (fs : List ArtifactFile) (t : List Run) :
    ∀ a ∈ goodArtifacts fs, runExists (importPass now fs t) a.id = true := by
  induction fs generalizing t with
  | nil => intro a ha; simp at ha
  | cons f fs ih =>
    intro a ha
    cases f with
    | malformed => exact ih t a (by simpa using ha)
    | good b =>
      rcases List.mem_cons.mp (by simpa using ha) with h | h
      · subst h
        exact runExists_importPass now fs _ a.id (importOne_self now t a)
      · exact ih _ a h

lemma importPass_stable (now : String) (fs : List ArtifactFile) (t : List Run)
    (h : ∀ a ∈ goodArtifacts fs, runExists t a.id = true) :
    importPass now fs t = t := by
  induction fs generalizing t with
  | nil => rfl
  | cons f fs ih =>
    cases f with
    | malformed => exact ih t (fun a ha => h a (by simpa using ha))
    | good b =>
      have hb : runExists t b.id = true := h b (by simp)
      have h1 : importPass now (ArtifactFile.good b :: fs) t = importPass now fs t := by
        simp only [importPass, List.foldl_cons, importOne_skip now t b hb]
      rw [h1]
      exact ih t (fun a ha => h a (by simp [ha]))

lemma importPass_repeat (now1 now2 : String) (fs : List ArtifactFile) (t : List Run) :
    importPass now2 fs (importPass now1 fs t) = importPass now1 fs t :=
  importPass_stable now2 fs _ (importPass_establishes now1 fs t)

/-- Claim C1: importer idempotence.  After one import pass over a file set,
any further sequence of passes over the same unchanged file set (each with
an arbitrary import-time clock) leaves the run table exactly as the first
pass left it, so every repeat pass inserts zero rows. -/
theorem claim_C1_import_idempotent (now1 : String) (nows : List String)
    (fs : List ArtifactFile) (t : List Run) :
    nows.foldl (fun s nw => importPass nw fs s) (importPass now1 fs t) =
      importPass now1 fs t := by
  induction nows with
  | nil => rfl
  | cons nw nows ih =>
    simp only [List.foldl_cons]
    rw [importPass_repeat now1 nw fs t]
    exact ih

/-- Claim C5: first import wins.  If a run with the artifact's id already
exists in the table, importing that artifact returns the table unchanged
(every field of every existing row untouched); moreover no import pass ever
removes or modifies an existing row. -/
theorem claim_C5_first_import_wins (now : String) (t : List Run) (a : Artifact)
    (h : runExists t a.id = true) :
    importOne now t (ArtifactFile.good a) = t ∧
      ∀ (fs : List ArtifactFile) (r : Run), r ∈ t → r ∈ importPass now fs t :=
  ⟨importOne_skip now t a h, fun fs r hr => mem_importPass now fs t r hr⟩

theorem claim_C5_witness :
    runExists [sampleRun] sampleArtifact.id = true ∧
      importOne "2024-02-02T00:00:00Z" [sampleRun] (ArtifactFile.good sampleArtifact) = [sampleRun] :=
  ⟨by decide,
    (claim_C5_first_import_wins "2024-02-02T00:00:00Z" [sampleRun] sampleArtifact (by decide)).1⟩

/-- Claim C10: `ImportJSONResults` returns a non-error result whenever the
glob succeeds, for every artifact set; a pass over only malformed files and
a pass that skips a duplicate both return success with the table unchanged,
indistinguishable from a fully successful pass (the function reports
no imported or skipped counts). -/
theorem claim_C10_errors_swallowed :
    (∀ (now : String) (fs : List ArtifactFile) (t : List Run),
      ∃ t2, importJSONResults now (Except.ok fs) t = Except.ok t2) ∧
    (∀ (now : String) (fs : List ArtifactFile) (t : List Run),
      (∀ f ∈ fs, f = ArtifactFile.malformed) →
        importJSONResults now (Except.ok fs) t = Except.ok t) ∧
    (∀ (now : String) (t : List Run) (a : Artifact),
      runExists t a.id = true →
        importJSONResults now (Except.ok [ArtifactFile.good a]) t = Except.ok t) := by
  refine ⟨fun now fs t => ⟨importPass now fs t, rfl⟩, ?_, ?_⟩
  · intro now fs t hmal
    have : importPass now fs t = t := by
      apply importPass_stable
      intro a ha
      exfalso
      rcases List.mem_filterMap.mp ha with ⟨f, hf, hfa⟩
      have := hmal f hf
      subst this
      simp at hfa
    simp [importJSONResults, this]
  · intro now t a h
    have : importPass now [ArtifactFile.good a] t = t := importOne_skip now t a h
    simp [importJSONResults, this]

theorem claim_C10_witness :
    (∀ f ∈ [ArtifactFile.malformed], f = ArtifactFile.malformed) ∧
      importJSONResults "2024-02-02T00:00:00Z" (Except.ok [ArtifactFile.malformed]) [] =
        Except.ok [] :=
  ⟨by decide,
    claim_C10_errors_swallowed.2.1 "2024-02-02T00:00:00Z" [ArtifactFile.malformed] [] (by decide)⟩

/- ===================== extractor claims ===================== -/

/-- Claim C2: status coercion.  A status string in the closed enum
`{ok, fixed, failed, issues_found, running}` passes the `case` validation
unchanged; any other string is coerced to `ok`; and when no status field
parses from the report at all, the final status is `ok`. -/
theorem claim_C2_status_coercion :
    (∀ s : List Char, statusEnumL s = true → validateStatus s = s) ∧
    (∀ s : List Char, statusEnumL s = false → validateStatus s = okC) ∧
    (∀ report : List Char, grepAll matchStatusKey report = [] →
      validateStatus (statusVar report) = okC) := by
  refine ⟨?_, ?_, ?_⟩
  · intro s hs; simp [validateStatus, hs]
  · intro s hs; simp [validateStatus, hs]
  · intro report hrep
    have h0 : List.intercalate ['\n'] ([] : List (List Char)) = [] := rfl
    have h1 : statusParsed report = [] := by
      simp [statusParsed, hrep, h0, stripTrailingNL]
    have h2 : statusEnumL okC = true := by decide
    simp [statusVar, h1, validateStatus, h2]

theorem claim_C2_witness :
    statusEnumL "fixed".data = true ∧ validateStatus "fixed".data = "fixed".data ∧
      statusEnumL "bogus".data = false ∧ validateStatus "bogus".data = okC :=
  ⟨by decide, claim_C2_status_coercion.1 "fixed".data (by decide), by decide,
    claim_C2_status_coercion.2.1 "bogus".data (by decide)⟩

/-- Claim C6: a transcript with no start marker yields the empty report,
all counts `0` and status `ok` (the default path, not an error path). -/
theorem claim_C6_markerless (transcript : List (List Char))
    (h : hasStart transcript = false) :
    extractAll transcript =
      { report := [], podCount := ['0'], errorCount := ['0'], fixCount := ['0'],
        status := okC } := by
  have h2 : validateStatus okC = okC := by decide
  simp [extractAll, h, h2]

theorem claim_C6_witness :
    hasStart [['h', 'i']] = false ∧
      extractAll [['h', 'i']] =
        { report := [], podCount := ['0'], errorCount := ['0'], fixCount := ['0'],
          status := okC } :=
  ⟨by decide, claim_C6_markerless [['h', 'i']] (by decide)⟩

/- ===================== claim C4: batch robustness ===================== -/

lemma runExists_append (t l : List Run) (i : Int) :
    runExists (t ++ l) i = (runExists t i || runExists l i) := by
  simp [runExists, List.any_append]

lemma importPass_fresh (now : String) (fs : List ArtifactFile) (t : List Run)
    (hnodup : ((goodArtifacts fs).map (fun a => a.id)).Nodup)
    (hfresh : ∀ a ∈ goodArtifacts fs, runExists t a.id = false) :
    importPass now fs t = t ++ (goodArtifacts fs).map (toRun now) := by
  induction fs generalizing t with
  | nil => simp [importPass]
  | cons f fs ih =>
    cases f with
    | malformed =>
      simpa using ih t (by simpa using hnodup) (fun a ha => hfresh a (by simpa using ha))
    | good b =>
      have hb : runExists t b.id = false := hfresh b (by simp)
      have hstep : importPass now (ArtifactFile.good b :: fs) t =
          importPass now fs (t ++ [toRun now b]) := by
        simp only [importPass, List.foldl_cons]
        rw [importOne_insert now t b (by simp [hb])]
      have hnd : ((goodArtifacts fs).map (fun a => a.id)).Nodup := by
        simpa using (List.nodup_cons.mp (by simpa using hnodup)).2
      have hni : b.id ∉ (goodArtifacts fs).map (fun a => a.id) :=
        (List.nodup_cons.mp (by simpa using hnodup)).1
      have hfr : ∀ a ∈ goodArtifacts fs, runExists (t ++ [toRun now b]) a.id = false := by
        intro a ha
        rw [runExists_append]
        have h1 : runExists t a.id = false := hfresh a (by simp [ha])
        have h2 : ¬a.id = b.id := by
          intro hcontra
          exact hni (hcontra ▸ List.mem_map.mpr ⟨a, ha, rfl⟩)
        have h3 : runExists [toRun now b] a.id = false := by
          simp [runExists, toRun]
          intro hcontra
          exact h2 hcontra.symm
        rw [h1, h3]
        rfl
      rw [hstep, ih (t ++ [toRun now b]) hnd hfr]
      simp

/-- Claim C4: importer robustness.  For any batch of files in which the
decodable artifacts carry pairwise distinct ids, all fresh with respect to
the current table, one import pass appends exactly those artifacts as rows
(in batch order), skipping every malformed file without aborting, so the
table grows by exactly the number of well-formed artifacts. -/
theorem claim_C4_importer_robustness (now : String) (fs : List ArtifactFile) (t : List Run)
    (hnodup : ((goodArtifacts fs).map (fun a => a.id)).Nodup)
    (hfresh : ∀ a ∈ goodArtifacts fs, runExists t a.id = false) :
    importPass now fs t = t ++ (goodArtifacts fs).map (toRun now) ∧
      (importPass now fs t).length = t.length + (goodArtifacts fs).length := by
  have h := importPass_fresh now fs t hnodup hfresh
  exact ⟨h, by rw [h]; simp⟩

theorem claim_C4_witness :
    ((goodArtifacts batchFiles).map (fun a => a.id)).Nodup ∧
      (∀ a ∈ goodArtifacts batchFiles, runExists [] a.id = false) ∧
      importPass "2024-02-02T00:00:00Z" batchFiles [] =
        [] ++ (goodArtifacts batchFiles).map (toRun "2024-02-02T00:00:00Z") ∧
      (importPass "2024-02-02T00:00:00Z" batchFiles []).length =
        List.length ([] : List Run) + (goodArtifacts batchFiles).length :=
  ⟨by decide, by decide,
    (claim_C4_importer_robustness "2024-02-02T00:00:00Z" batchFiles [] (by decide) (by decide)).1,
    (claim_C4_importer_robustness "2024-02-02T00:00:00Z" batchFiles [] (by decide) (by decide)).2⟩

/- ===================== claim C3: status reaching the store ===================== -/

/-- Claim C3 counterexample: the importer inserts the artifact's status
field verbatim, so importing an artifact file whose status is the arbitrary
string `bogus` puts a row with an unrecognized status into the run table,
refuting the claim that no unrecognized status ever reaches the store. -/
theorem claim_C3_counterexample :
    ∃ r ∈ importPass "2024-02-02T00:00:00Z" [ArtifactFile.good bogusArtifact] [],
      statusAllowed r.status = false := by decide

/-- Claim C3 amended: the watcher's extractor only ever emits statuses of
the closed enum, and the importer preserves statuses, so every row of a
table produced by importing watcher-produced (enum-status) artifacts into an
enum-status table has a status in the enum; arbitrary artifact files are
not covered, as the importer copies their status unchanged. -/
theorem claim_C3_amended :
    (∀ s : List Char, statusAllowed (String.mk (validateStatus s)) = true) ∧
    (∀ (now : String) (t : List Run) (fs : List ArtifactFile),
      (∀ r ∈ t, statusAllowed r.status = true) →
      (∀ a ∈ goodArtifacts fs, statusAllowed a.status = true) →
      ∀ r ∈ importPass now fs t, statusAllowed r.status = true) := by
  constructor
  · intro s
    by_cases hs : statusEnumL s = true
    · unfold validateStatus
      rw [if_pos hs]
      simp only [statusEnumL, Bool.or_eq_true, beq_iff_eq] at hs
      rcases hs with (((h | h) | h) | h) | h <;> subst h <;> decide
    · unfold validateStatus
      rw [if_neg hs]
      decide
  · intro now t fs
    induction fs generalizing t with
    | nil => intro ht _ r hr; exact ht r hr
    | cons f fs ih =>
      intro ht ha r hr
      cases f with
      | malformed => exact ih t ht (fun a h => ha a (by simpa using h)) r hr
      | good b =>
        have ht2 : ∀ r2 ∈ importOne now t (ArtifactFile.good b),
            statusAllowed r2.status = true := by
          intro r2 hr2
          by_cases he : runExists t b.id = true
          · rw [importOne_skip now t b he] at hr2; exact ht r2 hr2
          · rw [importOne_insert now t b he] at hr2
            rcases List.mem_append.mp hr2 with h | h
            · exact ht r2 h
            · have hrb : r2 = toRun now b := by simpa using h
              subst hrb
              have hb := ha b (by simp)
              simpa [toRun] using hb
        exact ih _ ht2 (fun a h => ha a (by simp [h])) r hr

theorem claim_C3_witness :
    (∀ r ∈ ([] : List Run), statusAllowed r.status = true) ∧
      (∀ a ∈ goodArtifacts [ArtifactFile.good sampleArtifact], statusAllowed a.status = true) ∧
      ∀ r ∈ importPass "2024-02-02T00:00:00Z" [ArtifactFile.good sampleArtifact] [],
        statusAllowed r.status = true :=
  ⟨by decide, by decide,
    claim_C3_amended.2 "2024-02-02T00:00:00Z" [] [ArtifactFile.good sampleArtifact]
      (by decide) (by decide)⟩

/- ===================== claim C8: log caps ===================== -/

/-- Claim C8 counterexample: the importer applies no length cap, so when an
artifact file whose log field holds 100001 characters gets imported, it
stores a row whose log exceeds every cap appearing in the code (50000 at artifact
write, 100000 at log read), refuting the claim that the cap is enforced
at the import stage as well. -/
theorem claim_C8_counterexample :
    ∃ r ∈ importPass "2024-02-02T00:00:00Z" [ArtifactFile.good hugeArtifact] [],
      100000 < r.log.length := by
  have h0 : ¬runExists [] hugeArtifact.id = true := by
    intro hc
    rcases (runExists_iff [] hugeArtifact.id).mp hc with ⟨r, hr, -⟩
    exact absurd hr (List.not_mem_nil r)
  have h1 : importPass "2024-02-02T00:00:00Z" [ArtifactFile.good hugeArtifact] [] =
      [] ++ [toRun "2024-02-02T00:00:00Z" hugeArtifact] :=
    importOne_insert "2024-02-02T00:00:00Z" [] hugeArtifact h0
  refine ⟨toRun "2024-02-02T00:00:00Z" hugeArtifact, ?_, ?_⟩
  · rw [h1]; simp
  · have h2 : (toRun "2024-02-02T00:00:00Z" hugeArtifact).log = hugeLog := rfl
    have h3 : hugeLog.length = (List.replicate 100001 'a').length := rfl
    rw [h2, h3, List.length_replicate]
    norm_num

lemma stripTrailingNL_length_le (s : List Char) :
    (stripTrailingNL s).length ≤ s.length := by
  simp only [stripTrailingNL, List.length_reverse]
  calc (List.dropWhile (fun c => c == '\n') s.reverse).length
      ≤ s.reverse.length := ((List.dropWhile_suffix _).sublist).length_le
    _ = s.length := List.length_reverse s

/-- Claim C8 amended: the log cap is enforced only at the watcher stage —
the log written into an artifact is at most 50000 characters — while
the importer copies the artifact's log into the inserted row verbatim, so
the stored log is bounded only for artifacts the watcher itself wrote. -/
theorem claim_C8_amended :
    (∀ logFile : List Char, (watcherLog logFile).length ≤ 50000) ∧
    (∀ (now : String) (t : List Run) (a : Artifact),
      ∀ r ∈ importOne now t (ArtifactFile.good a), r ∈ t ∨ r.log = a.log) := by
  constructor
  · intro logFile
    calc (watcherLog logFile).length
        ≤ (List.take 50000 (escapeQuotes (stripTrailingNL (List.take 100000 logFile)) ++ ['\n'])).length :=
          stripTrailingNL_length_le _
      _ ≤ 50000 := List.length_take_le _ _
  · intro now t a r hr
    by_cases he : runExists t a.id = true
    · rw [importOne_skip now t a he] at hr; exact Or.inl hr
    · rw [importOne_insert now t a he] at hr
      rcases List.mem_append.mp hr with h | h
      · exact Or.inl h
      · right
        have hra : r = toRun now a := by simpa using h
        subst hra
        rfl

theorem claim_C8_witness :
    (watcherLog "ab".data).length ≤ 50000 ∧
      toRun "n" sampleArtifact ∈ importOne "n" [] (ArtifactFile.good sampleArtifact) ∧
      (toRun "n" sampleArtifact ∈ ([] : List Run) ∨
        (toRun "n" sampleArtifact).log = sampleArtifact.log) := by
  have hm : toRun "n" sampleArtifact ∈ importOne "n" [] (ArtifactFile.good sampleArtifact) := by
    decide
  exact ⟨claim_C8_amended.1 "ab".data, hm,
    claim_C8_amended.2 "n" [] sampleArtifact (toRun "n" sampleArtifact) hm⟩

/- ===================== claim C9: namespace statistics ===================== -/

lemma counts_le_and_eq (l : List Run) :
    l.countP (fun r => r.status == "ok") + l.countP (fun r => r.status == "fixed") +
        l.countP (fun r => r.status == "failed" || r.status == "issues_found") ≤ l.length ∧
      (l.countP (fun r => r.status == "ok") + l.countP (fun r => r.status == "fixed") +
          l.countP (fun r => r.status == "failed" || r.status == "issues_found") = l.length ↔
        ∀ r ∈ l, r.status = "ok" ∨ r.status = "fixed" ∨ r.status = "failed" ∨
          r.status = "issues_found") := by
  induction l with
  | nil => simp
  | cons r l ih =>
    rcases ih with ⟨ih1, ih2⟩
    simp only [List.countP_cons, List.length_cons, List.forall_mem_cons]
    by_cases h1 : r.status = "ok"
    · simp [h1]
      refine ⟨by omega, ?_, ?_⟩
      · intro h; exact ih2.mp (by omega)
      · intro h; have := ih2.mpr h; omega
    · by_cases h2 : r.status = "fixed"
      · simp [h2]
        refine ⟨by omega, ?_, ?_⟩
        · intro h; exact ih2.mp (by omega)
        · intro h; have := ih2.mpr h; omega
      · by_cases h3 : r.status = "failed"
        · simp [h3]
          refine ⟨by omega, ?_, ?_⟩
          · intro h; exact ih2.mp (by omega)
          · intro h; have := ih2.mpr h; omega
        · by_cases h4 : r.status = "issues_found"
          · simp [h4]
            refine ⟨by omega, ?_, ?_⟩
            · intro h; exact ih2.mp (by omega)
            · intro h; have := ih2.mpr h; omega
          · have e1 : (r.status == "ok") = false := beq_eq_false_iff_ne.mpr h1
            have e2 : (r.status == "fixed") = false := beq_eq_false_iff_ne.mpr h2
            have e3 : (r.status == "failed") = false := beq_eq_false_iff_ne.mpr h3
            have e4 : (r.status == "issues_found") = false := beq_eq_false_iff_ne.mpr h4
            simp [e1, e2, e3, e4]
            refine ⟨by omega, ?_, ?_⟩
            · intro h; exfalso; omega
            · rintro ⟨hr, -⟩
              rcases hr with h | h | h | h
              · exact absurd h h1
              · exact absurd h h2
              · exact absurd h h3
              · exact absurd h h4

/-- Claim C9 counterexample: a table holding one run with the out-of-enum
status `bogus` (reachable through the importer, see the claim C3
counterexample) has no `running` run in its namespace, yet
`ok_count + fixed_count + failed_count` falls short of `run_count`,
refuting the claimed equality condition. -/
theorem claim_C9_counterexample :
    (∀ r ∈ nsRuns [bogusRun] "prod", ¬r.status = "running") ∧
      ¬(okCount [bogusRun] "prod" + fixedCount [bogusRun] "prod" +
          failedCount [bogusRun] "prod" = runCount [bogusRun] "prod") := by decide

/-- Claim C9 amended: for every table state and namespace,
`ok_count + fixed_count + failed_count ≤ run_count`, with equality exactly
when every run of that namespace has one of the four terminal enum statuses
(so in particular a `running` run, or any out-of-enum status, breaks
equality). -/
theorem claim_C9_amended (t : List Run) (ns : String) :
    okCount t ns + fixedCount t ns + failedCount t ns ≤ runCount t ns ∧
      (okCount t ns + fixedCount t ns + failedCount t ns = runCount t ns ↔
        ∀ r ∈ nsRuns t ns, r.status = "ok" ∨ r.status = "fixed" ∨ r.status = "failed" ∨
          r.status = "issues_found") :=
  counts_le_and_eq (nsRuns t ns)

/- ===================== claim C7: count extraction ===================== -/

lemma dropWhile_length_le (p : Char → Bool) (l : List Char) :
    (List.dropWhile p l).length ≤ l.length :=
  ((List.dropWhile_suffix p).sublist).length_le

lemma stripLit_length (p : List Char) :
    ∀ s r, stripLit p s = some r → s.length = p.length + r.length := by
  induction p with
  | nil =>
    intro s r h
    simp [stripLit] at h
    subst h
    simp
  | cons c p ih =>
    intro s r h
    cases s with
    | nil => simp [stripLit] at h
    | cons c2 s =>
      by_cases he : (c2 == c) = true
      · simp only [stripLit, he, if_true] at h
        have h2 := ih s r h
        simp only [List.length_cons]
        omega
      · simp only [stripLit, he, if_false] at h
        exact absurd h (by simp)

lemma stripLit_self (p r : List Char) : stripLit p (p ++ r) = some r := by
  induction p with
  | nil => rfl
  | cons c p ih => simp [stripLit, ih]

lemma matchCountKey_head (key : List Char) (c : Char) (cs : List Char) (h : ¬c = '"') :
    matchCountKey key (c :: cs) = none := by
  have h1 : stripLit ('"' :: key ++ ['"']) (c :: cs) = none := by
    simp [stripLit, beq_eq_false_iff_ne.mpr h]
  unfold matchCountKey
  rw [h1]

lemma matchCountKey_shrinking (key : List Char) : Shrinking (matchCountKey key) := by
  intro s d r h
  unfold matchCountKey at h
  split at h
  · simp at h
  · next r1 h1 =>
    have hl1 : s.length = ('"' :: key ++ ['"']).length + r1.length := stripLit_length _ s r1 h1
    split at h
    · next r3 h2 =>
      simp only [Option.some.injEq, Prod.mk.injEq] at h
      have hr : r = (r3.dropWhile isSpaceCh).dropWhile isDigitCh := h.2.symm
      have l1 : r.length ≤ r3.length := by
        rw [hr]
        calc ((r3.dropWhile isSpaceCh).dropWhile isDigitCh).length
            ≤ (r3.dropWhile isSpaceCh).length := dropWhile_length_le _ _
          _ ≤ r3.length := dropWhile_length_le _ _
      have l2 : r3.length + 1 ≤ r1.length := by
        have h3 := dropWhile_length_le isSpaceCh r1
        rw [h2] at h3
        simpa using h3
      have l3 : 1 ≤ ('"' :: key ++ ['"']).length := by simp
      omega
    · simp at h

lemma scanAux_cons_some (m : List Char → Option (List Char × List Char)) (n : Nat)
    (c : Char) (cs d rest : List Char) (h : m (c :: cs) = some (d, rest)) :
    scanAux m (n + 1) (c :: cs) = d :: scanAux m n rest := by
  simp only [scanAux, h]

lemma scanAux_cons_none (m : List Char → Option (List Char × List Char)) (n : Nat)
    (c : Char) (cs : List Char) (h : m (c :: cs) = none) :
    scanAux m (n + 1) (c :: cs) = scanAux m n cs := by
  simp only [scanAux, h]

lemma scanAux_congr (m : List Char → Option (List Char × List Char)) (hm : Shrinking m) :
    ∀ n1 n2 s, s.length ≤ n1 → s.length ≤ n2 →
      scanAux m n1 s = scanAux m n2 s := by
  intro n1
  induction n1 using Nat.strong_induction_on with
  | _ n1 ih =>
    intro n2 s h1 h2
    cases s with
    | nil => cases n1 <;> cases n2 <;> rfl
    | cons c cs =>
      cases n1 with
      | zero => simp at h1
      | succ k1 =>
        cases n2 with
        | zero => simp at h2
        | succ k2 =>
          cases hmc : m (c :: cs) with
          | none =>
            simp only [List.length_cons] at h1 h2
            rw [scanAux_cons_none m k1 c cs hmc, scanAux_cons_none m k2 c cs hmc]
            exact ih k1 (by omega) k2 cs (by omega) (by omega)
          | some p =>
            rcases p with ⟨d, rest⟩
            have hlt := hm (c :: cs) d rest hmc
            simp only [List.length_cons] at h1 h2 hlt
            rw [scanAux_cons_some m k1 c cs d rest hmc, scanAux_cons_some m k2 c cs d rest hmc]
            rw [ih k1 (by omega) k2 rest (by omega) (by omega)]

lemma scanAux_noquote (key : List Char) (s : List Char) (hs : ∀ c ∈ s, ¬c = '"') :
    ∀ n, scanAux (matchCountKey key) n s = [] := by
  induction s with
  | nil => intro n; cases n <;> rfl
  | cons c cs ih =>
    intro n
    cases n with
    | zero => rfl
    | succ k =>
      rw [scanAux_cons_none _ k c cs (matchCountKey_head key c cs (hs c (by simp)))]
      exact ih (fun c2 h2 => hs c2 (by simp [h2])) k

lemma dropWhile_all_append (p : Char → Bool) (l1 l2 : List Char)
    (h : ∀ c ∈ l1, p c = true) :
    List.dropWhile p (l1 ++ l2) = List.dropWhile p l2 := by
  induction l1 with
  | nil => rfl
  | cons c l1 ih =>
    simp only [List.cons_append, List.dropWhile_cons, h c (by simp), if_true]
    exact ih (fun c2 h2 => h c2 (by simp [h2]))

lemma dropWhile_head_false (p : Char → Bool) (l : List Char)
    (h : ∀ c, l.head? = some c → p c = false) : List.dropWhile p l = l := by
  cases l with
  | nil => rfl
  | cons c cs => simp [List.dropWhile_cons, h c rfl]

lemma takeWhile_all_append (p : Char → Bool) (l1 l2 : List Char)
    (h1 : ∀ c ∈ l1, p c = true) (h2 : ∀ c, l2.head? = some c → p c = false) :
    List.takeWhile p (l1 ++ l2) = l1 ∧ List.dropWhile p (l1 ++ l2) = l2 := by
  induction l1 with
  | nil =>
    constructor
    · cases l2 with
      | nil => rfl
      | cons c cs => simp [List.takeWhile_cons, h2 c rfl]
    · exact dropWhile_head_false p l2 h2
  | cons c l1 ih =>
    have hc := h1 c (by simp)
    rcases ih (fun x hx => h1 x (by simp [hx])) with ⟨iht, ihd⟩
    constructor
    · simp [List.takeWhile_cons, hc, iht]
    · simp [List.dropWhile_cons, hc, ihd]

lemma digit_not_space (c : Char) (h : isDigitCh c = true) : isSpaceCh c = false := by
  rcases Bool.eq_false_or_eq_true (isSpaceCh c) with h2 | h2
  · exfalso
    simp only [isSpaceCh, Bool.or_eq_true, beq_iff_eq] at h2
    rcases h2 with ((((h3 | h3) | h3) | h3) | h3) | h3 <;> subst h3 <;>
      exact absurd h (by decide)
  · exact h2

lemma matchCountKey_occ (key sp1 sp2 ds post : List Char)
    (hsp1 : ∀ c ∈ sp1, isSpaceCh c = true) (hsp2 : ∀ c ∈ sp2, isSpaceCh c = true)
    (hds : ∀ c ∈ ds, isDigitCh c = true)
    (hpostd : ∀ c, post.head? = some c → isDigitCh c = false)
    (hdsp : ∀ c, (ds ++ post).head? = some c → isSpaceCh c = false) :
    matchCountKey key (('"' :: key ++ ['"']) ++ (sp1 ++ ':' :: (sp2 ++ (ds ++ post)))) =
      some (ds, post) := by
  unfold matchCountKey
  rw [stripLit_self]
  simp only []
  have hd1 : List.dropWhile isSpaceCh (sp1 ++ ':' :: (sp2 ++ (ds ++ post))) =
      ':' :: (sp2 ++ (ds ++ post)) := by
    rw [dropWhile_all_append _ _ _ hsp1]
    exact dropWhile_head_false _ _ (fun c hc => by
      injection hc with hc2
      rw [← hc2]
      decide)
  rw [hd1]
  simp only []
  have hd2 : List.dropWhile isSpaceCh (sp2 ++ (ds ++ post)) = ds ++ post := by
    rw [dropWhile_all_append _ _ _ hsp2]
    exact dropWhile_head_false _ _ hdsp
  rw [hd2]
  rcases takeWhile_all_append isDigitCh ds post hds hpostd with ⟨ht, hd⟩
  rw [ht, hd]

lemma scanAux_skip_pre (key pre t : List Char) (hpre : ∀ c ∈ pre, ¬c = '"') :
    ∀ n, (pre ++ t).length ≤ n →
      scanAux (matchCountKey key) n (pre ++ t) = scanAux (matchCountKey key) t.length t := by
  induction pre with
  | nil =>
    intro n hn
    exact scanAux_congr _ (matchCountKey_shrinking key) n t.length t hn le_rfl
  | cons c pre ih =>
    intro n hn
    cases n with
    | zero => simp at hn
    | succ k =>
      simp only [List.cons_append] at hn ⊢
      rw [scanAux_cons_none _ k c (pre ++ t)
        (matchCountKey_head key c (pre ++ t) (hpre c (by simp)))]
      exact ih (fun x hx => hpre x (by simp [hx])) k (by simp at hn ⊢; omega)

lemma grepAll_occ (key pre sp1 sp2 ds post : List Char)
    (hpre : ∀ c ∈ pre, ¬c = '"') (hpost : ∀ c ∈ post, ¬c = '"')
    (hsp1 : ∀ c ∈ sp1, isSpaceCh c = true) (hsp2 : ∀ c ∈ sp2, isSpaceCh c = true)
    (hds : ∀ c ∈ ds, isDigitCh c = true)
    (hpostd : ∀ c, post.head? = some c → isDigitCh c = false)
    (hdsp : ∀ c, (ds ++ post).head? = some c → isSpaceCh c = false) :
    grepAll (matchCountKey key)
      (pre ++ (('"' :: key ++ ['"']) ++ (sp1 ++ ':' :: (sp2 ++ (ds ++ post))))) = [ds] := by
  unfold grepAll
  rw [scanAux_skip_pre key pre (('"' :: key ++ ['"']) ++ (sp1 ++ ':' :: (sp2 ++ (ds ++ post))))
    hpre ((pre ++ (('"' :: key ++ ['"']) ++ (sp1 ++ ':' :: (sp2 ++ (ds ++ post))))).length) le_rfl]
  have hocc : matchCountKey key
      ('"' :: ((key ++ ['"']) ++ (sp1 ++ ':' :: (sp2 ++ (ds ++ post))))) = some (ds, post) :=
    matchCountKey_occ key sp1 sp2 ds post hsp1 hsp2 hds hpostd hdsp
  have hstep := scanAux_cons_some (matchCountKey key)
    (((key ++ ['"']) ++ (sp1 ++ ':' :: (sp2 ++ (ds ++ post)))).length) '"'
    ((key ++ ['"']) ++ (sp1 ++ ':' :: (sp2 ++ (ds ++ post)))) ds post hocc
  calc scanAux (matchCountKey key)
        ((('"' :: key ++ ['"']) ++ (sp1 ++ ':' :: (sp2 ++ (ds ++ post)))).length)
        (('"' :: key ++ ['"']) ++ (sp1 ++ ':' :: (sp2 ++ (ds ++ post))))
      = ds :: scanAux (matchCountKey key)
          (((key ++ ['"']) ++ (sp1 ++ ':' :: (sp2 ++ (ds ++ post)))).length) post := hstep
    _ = [ds] := by rw [scanAux_noquote key post hpost]

lemma intercalate_single (a : List Char) : List.intercalate ['\n'] [a] = a := by
  simp [List.intercalate]

lemma countVar_occ (key pre sp1 sp2 ds post : List Char)
    (hpre : ∀ c ∈ pre, ¬c = '"') (hpost : ∀ c ∈ post, ¬c = '"')
    (hsp1 : ∀ c ∈ sp1, isSpaceCh c = true) (hsp2 : ∀ c ∈ sp2, isSpaceCh c = true)
    (hds : ∀ c ∈ ds, isDigitCh c = true)
    (hpostd : ∀ c, post.head? = some c → isDigitCh c = false)
    (hdsp : ∀ c, (ds ++ post).head? = some c → isSpaceCh c = false)
    (hds0 : ds ≠ []) :
    countVar key (pre ++ (('"' :: key ++ ['"']) ++ (sp1 ++ ':' :: (sp2 ++ (ds ++ post))))) =
      ds := by
  unfold countVar
  rw [grepAll_occ key pre sp1 sp2 ds post hpre hpost hsp1 hsp2 hds hpostd hdsp]
  have hne : (!ds.isEmpty) = true := by
    cases ds
    · exact absurd rfl hds0
    · rfl
  have hfil : List.filter (fun d => !d.isEmpty) [ds] = [ds] := by
    simp [List.filter_cons, hne]
  rw [hfil]
  rw [if_neg (by simp)]
  exact intercalate_single ds

lemma countVar_noquote (key report : List Char) (h : ∀ c ∈ report, ¬c = '"') :
    countVar key report = ['0'] := by
  unfold countVar
  rw [show grepAll (matchCountKey key) report = [] from
    scanAux_noquote key report h report.length]
  rfl

lemma countVar_nonnum (key pre sp1 sp2 post : List Char)
    (hpre : ∀ c ∈ pre, ¬c = '"') (hpost : ∀ c ∈ post, ¬c = '"')
    (hsp1 : ∀ c ∈ sp1, isSpaceCh c = true) (hsp2 : ∀ c ∈ sp2, isSpaceCh c = true)
    (hpostd : ∀ c, post.head? = some c → (isDigitCh c = false ∧ isSpaceCh c = false)) :
    countVar key (pre ++ (('"' :: key ++ ['"']) ++ (sp1 ++ ':' :: (sp2 ++ post)))) = ['0'] := by
  have hg := grepAll_occ key pre sp1 sp2 [] post hpre hpost hsp1 hsp2 (by simp)
    (fun c hc => (hpostd c hc).1) (fun c hc => (hpostd c hc).2)
  unfold countVar
  rw [show grepAll (matchCountKey key)
      (pre ++ (('"' :: key ++ ['"']) ++ (sp1 ++ ':' :: (sp2 ++ post)))) = [[]] from hg]
  rfl

/-- Claim C7 counterexample: the count patterns of entrypoint.sh require the
key to appear QUOTED.  For the report `pod_count : 5`, with an unquoted key,
the claim requires the extracted pod count to be `5`, but the script leaves
the default `0`; the same binding with the key quoted does yield `5`. -/
theorem claim_C7_counterexample :
    countVar podKeyC "pod_count : 5".data = ['0'] ∧
      ¬countVar podKeyC "pod_count : 5".data = ['5'] ∧
      countVar podKeyC "\"pod_count\" : 5".data = ['5'] := by decide

/-- Claim C7 amended: each count is extracted independently, but only a
quoted key is recognized.  In a report whose only double quotes are the two
around a single occurrence of the quoted key, with arbitrary whitespace
around the colon, the count variable is exactly the digit run bound there;
it keeps its default `0` when the report holds no quoted key at all (in
particular when the key appears only unquoted) or when the quoted key's
value is non-numeric. -/
theorem claim_C7_loose_counts :
    (∀ key pre sp1 sp2 ds post : List Char,
      (∀ c ∈ pre, ¬c = '"') → (∀ c ∈ post, ¬c = '"') →
      (∀ c ∈ sp1, isSpaceCh c = true) → (∀ c ∈ sp2, isSpaceCh c = true) →
      ds ≠ [] → (∀ c ∈ ds, isDigitCh c = true) →
      (∀ c, post.head? = some c → isDigitCh c = false) →
      countVar key (pre ++ (('"' :: key ++ ['"']) ++ (sp1 ++ ':' :: (sp2 ++ (ds ++ post))))) =
        ds) ∧
    (∀ key report : List Char, (∀ c ∈ report, ¬c = '"') → countVar key report = ['0']) ∧
    (∀ key pre sp1 sp2 post : List Char,
      (∀ c ∈ pre, ¬c = '"') → (∀ c ∈ post, ¬c = '"') →
      (∀ c ∈ sp1, isSpaceCh c = true) → (∀ c ∈ sp2, isSpaceCh c = true) →
      (∀ c, post.head? = some c → (isDigitCh c = false ∧ isSpaceCh c = false)) →
      countVar key (pre ++ (('"' :: key ++ ['"']) ++ (sp1 ++ ':' :: (sp2 ++ post)))) = ['0']) := by
  refine ⟨?_, ?_, ?_⟩
  · intro key pre sp1 sp2 ds post hpre hpost hsp1 hsp2 hds0 hds hpostd
    have hdsp : ∀ c, (ds ++ post).head? = some c → isSpaceCh c = false := by
      intro c hc
      cases ds with
      | nil => exact absurd rfl hds0
      | cons d0 ds2 =>
        have hd0 : d0 = c := by simpa using hc
        subst hd0
        exact digit_not_space d0 (hds d0 (by simp))
    exact countVar_occ key pre sp1 sp2 ds post hpre hpost hsp1 hsp2 hds hpostd hdsp hds0
  · exact fun key report h => countVar_noquote key report h
  · exact fun key pre sp1 sp2 post hpre hpost hsp1 hsp2 hpostd =>
      countVar_nonnum key pre sp1 sp2 post hpre hpost hsp1 hsp2 hpostd

theorem claim_C7_witness :
    (∀ c ∈ "x pods ".data, ¬c = '"') ∧
      countVar podKeyC
        ("x pods ".data ++ (('"' :: podKeyC ++ ['"']) ++ ([' '] ++ ':' :: ([' '] ++ (['5'] ++ []))))) =
        ['5'] ∧
      countVar podKeyC "no counts".data = ['0'] :=
  ⟨by decide,
    claim_C7_loose_counts.1 podKeyC "x pods ".data [' '] [' '] ['5'] []
      (by decide) (by decide) (by decide) (by decide) (by decide) (by decide)
      (by intro c hc; simp at hc),
    claim_C7_loose_counts.2.1 podKeyC "no counts".data (by decide)⟩
